import Mathlib

/-
Verification development for the OpenMensa feed generator for the
Zentralmensa Arnold-Bode-Strasse (scripts/parser.py).

The Python source is shallowly embedded below.  Strings are modelled as
lists of characters (Lean Char covers the Unicode code points the source
works with), Python None as Option, and Python floats as exact rationals:
every numeric string that normalize_price accepts denotes a decimal
amount, and the two-decimal output formatting is modelled by round half
to even on rationals, matching the Python float formatting on the decimal
amounts this program handles.  The regular expressions of the source are
embedded as deterministic scanners; each scanner is written so that it
agrees with the leftmost-match backtracking semantics of the Python re
module on the pattern it models (the character classes backslash-d and
backslash-s are modelled as the ASCII digits and the ASCII whitespace
characters, which are the only ones the source pages contain).
-/

/-- Set of characters treated as whitespace, modelling the Python
whitespace class used by strip, the regex whitespace class and
splitlines on the input texts of this program. -/
def isSpaceChar (c : Char) : Bool :=
  c == ' ' || c == '\t' || c == '\n' || c == '\r' || c == '\x0b' || c == '\x0c'

/-- The alphabetic characters of the source alphabet: the regex class
A-Z a-z plus the German umlauts and sharp s, exactly as written in the
source patterns. -/
def isGermanAlpha (c : Char) : Bool :=
  c.isAlpha || c == 'Ä' || c == 'Ö' || c == 'Ü' || c == 'ä' || c == 'ö' ||
    c == 'ü' || c == 'ß'

/-- Python str.strip: remove leading and trailing whitespace. -/
def pyStrip (cs : List Char) : List Char :=
  ((cs.dropWhile isSpaceChar).reverse.dropWhile isSpaceChar).reverse

/-- Auxiliary scanner for splitting a character list at every character
satisfying p, keeping empty segments, as Python re.split does on a
single-character class. -/
def splitByAux (p : Char → Bool) : List Char → List Char → List (List Char)
  | acc, [] => [acc.reverse]
  | acc, c :: t => if p c then acc.reverse :: splitByAux p [] t else splitByAux p (c :: acc) t

/-- Split a character list at every character satisfying p. -/
def splitBy (p : Char → Bool) (cs : List Char) : List (List Char) :=
  splitByAux p [] cs

/-- Numeric value of a list of decimal digit characters, most significant
first (value of the empty list is 0, as in the fractional part handling). -/
def digitsVal (cs : List Char) : Nat :=
  cs.foldl (fun a c => a * 10 + (c.toNat - 48)) 0

/-- Match a literal character sequence at the head of the input,
returning the rest on success. -/
def dropLit : List Char → List Char → Option (List Char)
  | [], cs => some cs
  | l :: ls, c :: cs => if c = l then dropLit ls cs else none
  | _ :: _, [] => none

/-- Scanner for one or two digits followed by a literal dot, with the
backtracking behaviour of the regex piece digit-one-or-two-then-dot:
two digits are preferred, and the one-digit reading applies exactly when
the second character is the dot itself.  Returns the numeric value and
the rest of the input. -/
def matchD12Dot : List Char → Option (Nat × List Char)
  | [] => none
  | a :: rest =>
    if a.isDigit then
      match rest with
      | [] => none
      | b :: rest2 =>
        if b.isDigit then
          match rest2 with
          | '.' :: rest3 => some (10 * (a.toNat - 48) + (b.toNat - 48), rest3)
          | _ => none
        else if b = '.' then some (a.toNat - 48, rest2) else none
    else none

/-- Scanner for exactly four digits, the year group of the range pattern. -/
def matchDigits4 : List Char → Option (Nat × List Char)
  | a :: b :: c :: d :: r =>
    if a.isDigit && b.isDigit && c.isDigit && d.isDigit then
      some (digitsVal [a, b, c, d], r)
    else none
  | _ => none

/-- Scanner for one date of the range pattern: day dot month dot
four-digit year. -/
def matchDMYAt (cs : List Char) : Option (Nat × Nat × Nat × List Char) :=
  match matchD12Dot cs with
  | none => none
  | some (d, r1) =>
    match matchD12Dot r1 with
    | none => none
    | some (m, r2) =>
      match matchDigits4 r2 with
      | none => none
      | some (y, r3) => some (d, m, y, r3)

/-- Scanner for the full date-range pattern at the current position:
date, optional whitespace, hyphen, optional whitespace, date.  Returns
the day, month and year of the first date (the group the source reads). -/
def matchRangeAt (cs : List Char) : Option (Nat × Nat × Nat) :=
  match matchDMYAt cs with
  | none => none
  | some (d, m, y, r) =>
    match r.dropWhile isSpaceChar with
    | '-' :: r2 =>
      match matchDMYAt (r2.dropWhile isSpaceChar) with
      | none => none
      | some _ => some (d, m, y)
    | _ => none

/-- Leftmost search for the date-range pattern, fuelled by the input
length: try to match at every position from the left. -/
def searchRangeAux : Nat → List Char → Option (Nat × Nat × Nat)
  | 0, _ => none
  | _, [] => none
  | fuel + 1, c :: t =>
    match matchRangeAt (c :: t) with
    | some r => some r
    | none => searchRangeAux fuel t

/-- re.search for the date-range pattern over the whole text. -/
def searchRange (cs : List Char) : Option (Nat × Nat × Nat) :=
  searchRangeAux cs.length cs

/-- Whether a year is a leap year, as the Python datetime module decides it. -/
def isLeapY (y : Nat) : Bool :=
  y % 4 == 0 && (y % 100 != 0 || y % 400 == 0)

/-- Number of days of a month, as the Python datetime module decides it. -/
def monthLen (y m : Nat) : Nat :=
  if m = 2 then (if isLeapY y then 29 else 28)
  else if m = 4 || m = 6 || m = 9 || m = 11 then 30
  else 31

/-- Whether datetime.strptime with the day-month-year format accepts the
given day, month and year numbers: the year within the datetime range,
the month a real month and the day within the month. -/
def validDMY (d m y : Nat) : Bool :=
  decide (1 ≤ y) && decide (y ≤ 9999) && decide (1 ≤ m) && decide (m ≤ 12) &&
    decide (1 ≤ d) && decide (d ≤ monthLen y m)

/-- Embedding of extract_year_from_text: search the text for the first
date range, return the year of its first date when that date parses, and
the current year otherwise.  The ambient current year is passed as the
nowYear argument. -/
def extract_year_from_text (text : String) (nowYear : Nat) : Nat :=
  match searchRange text.toList with
  | some (d, m, y) => if validDMY d m y then y else nowYear
  | none => nowYear

/-- The float value denoted by a dot-split digit token: no dot gives
the integer value, one dot gives the mixed decimal, anything else fails
(more than one dot, or no digit at all).  The value is written as one
integer quotient so that it evaluates by kernel reduction. -/
def floatOfSplit : List (List Char) → Option Rat
  | [ip] => if ip.isEmpty then none else some (Rat.divInt ((digitsVal ip : Nat) : Int) 1)
  | [ip, fp] =>
    if ip.isEmpty && fp.isEmpty then none
    else
      some (Rat.divInt ((digitsVal ip * 10 ^ fp.length + digitsVal fp : Nat) : Int)
        ((10 ^ fp.length : Nat) : Int))
  | _ => none

/-- Parse a cleaned price token consisting of digits and dots only, as
the Python float constructor does: at most one dot and at least one
digit; the value is the denoted decimal amount. -/
def parseFloatCore (cs : List Char) : Option Rat :=
  floatOfSplit (splitBy (fun c => c == '.') cs)

/-- Embedding of normalize_price on a character list: empty input gives
no value; otherwise strip, delete every euro sign and every space, turn
each comma into a dot, cut the string at the first character that is
neither a digit nor a dot, and parse the remainder as a float. -/
def normPriceCore (cs : List Char) : Option Rat :=
  if cs.isEmpty then none
  else
    parseFloatCore
      ((((pyStrip cs).filter (fun c => !(c == '€') && !(c == ' '))).map
          (fun c => if c = ',' then '.' else c)).takeWhile
        (fun c => c.isDigit || c == '.'))

/-- Embedding of normalize_price on strings. -/
def normalize_price (s : String) : Option Rat :=
  normPriceCore s.toList

/-- The three optional price roles of a meal, in the fixed insertion
order of the source dictionary: students, employees, others. -/
structure Prices where
  students : Option Rat
  employees : Option Rat
  others : Option Rat
deriving DecidableEq

/-- One meal of a day, as the extractor builds it. -/
structure Meal where
  category : List Char
  name : List Char
  notes : List (List Char)
  allergens : List (List Char)
  prices : Prices
deriving DecidableEq

/-- One day of the menu: the ISO date when the header date parsed,
the verbatim weekday name, and the meals of the day. -/
structure Day where
  date : Option String
  weekday : List Char
  meals : List Meal
deriving DecidableEq

/-- Whether a line contains a currency amount: one or more digits, a
comma or a dot, one or more digits, optional whitespace and the euro
sign, anywhere in the line.  Scanner for the price-line search pattern. -/
def matchAmountAt (cs : List Char) : Bool :=
  !(cs.takeWhile Char.isDigit).isEmpty &&
    (match cs.dropWhile Char.isDigit with
     | c :: r2 =>
       (c == ',' || c == '.') &&
         (!(r2.takeWhile Char.isDigit).isEmpty &&
           (match (r2.dropWhile Char.isDigit).dropWhile isSpaceChar with
            | '€' :: _ => true
            | _ => false))
     | [] => false)

/-- re.search of the currency-amount pattern: does it match at any
position of the line. -/
def hasPriceAmount (cs : List Char) : Bool :=
  cs.tails.any matchAmountAt

/-- The designated price line: the first line among lines two through
six of the meal body that contains a currency amount. -/
def findPriceLine (lines : List (List Char)) : Option (List Char) :=
  List.find? hasPriceAmount ((lines.drop 1).take 5)

/-- The non-empty trimmed lines of a meal body. -/
def mkLines (body : List Char) : List (List Char) :=
  ((splitBy (fun c => c == '\n') body).map pyStrip).filter (fun l => !l.isEmpty)

/-- The findall scanner for parenthesized groups: every maximal
non-empty run of non-closing-paren characters standing between an
opening and the next closing parenthesis, scanning left to right and
continuing after each closed group. -/
def findLabelsAux : Nat → List Char → List (List Char)
  | 0, _ => []
  | _, [] => []
  | fuel + 1, c :: t =>
    if c = '(' then
      match t.dropWhile (fun d => !(d == ')')) with
      | ')' :: r2 =>
        if (t.takeWhile (fun d => !(d == ')'))).isEmpty then findLabelsAux fuel t
        else t.takeWhile (fun d => !(d == ')')) :: findLabelsAux fuel r2
      | _ => findLabelsAux fuel t
    else findLabelsAux fuel t

/-- All parenthesized groups of a text. -/
def findLabels (cs : List Char) : List (List Char) :=
  findLabelsAux cs.length cs

/-- Split a group on slashes and commas, trim each part and keep the
non-empty parts. -/
def labelParts (l : List Char) : List (List Char) :=
  ((splitBy (fun c => c == '/' || c == ',') l).map pyStrip).filter (fun p => !p.isEmpty)

/-- Classify the parenthesized groups: a group with an alphabetic
character of the source alphabet contributes its parts as notes, a group
without one contributes its parts as allergen codes; both lists grow in
scan order. -/
def classifyLabels (labels : List (List Char)) : List (List Char) × List (List Char) :=
  labels.foldl
    (fun acc l =>
      if l.any isGermanAlpha then (acc.1 ++ labelParts l, acc.2)
      else (acc.1, acc.2 ++ labelParts l))
    ([], [])

/-- Whether a body line is structural noise: non-empty and made of
digits, commas, whitespace, slashes and parentheses only. -/
def noiseLine (l : List Char) : Bool :=
  !l.isEmpty &&
    l.all (fun c => c.isDigit || c == ',' || isSpaceChar c || c == '/' || c == '(' || c == ')')

/-- The candidate residual lines of a meal body: every line after the
name line that is not the designated price line and not structural
noise.  The skip conditions of the source loop do not depend on the
accumulated notes, so they are applied as a filter before the
accumulating pass. -/
def residualCands (lines : List (List Char)) (pl : Option (List Char)) : List (List Char) :=
  (lines.drop 1).filter (fun ln => !(some ln == pl) && !(noiseLine ln))

/-- The accumulating pass of the residual-line loop: append each
candidate line unless it already occurs among the collected notes. -/
def appendResiduals (notes cands : List (List Char)) : List (List Char) :=
  cands.foldl (fun acc ln => if ln ∈ acc then acc else acc ++ [ln]) notes

/-- Scanner for the case-insensitive category pattern: the word essen,
optional whitespace, then at least one digit, at the start of the
header. -/
def isEssenHeaderB : List Char → Bool
  | c1 :: c2 :: c3 :: c4 :: c5 :: rest =>
    c1.toLower == 'e' && c2.toLower == 's' && c3.toLower == 's' &&
      c4.toLower == 'e' && c5.toLower == 'n' &&
      (match rest.dropWhile isSpaceChar with
       | d :: _ => d.isDigit
       | [] => false)
  | _ => false

/-- Category normalization: headers matching the essen pattern become
the canonical Hauptgericht label, all others stay unchanged. -/
def categoryOf (catRaw : List Char) : List Char :=
  if isEssenHeaderB catRaw then "Hauptgericht".toList else catRaw

/-- The parts of the designated price line: split on slashes, trim,
drop empty parts. -/
def cleanParts (pl : List Char) : List (List Char) :=
  ((splitBy (fun c => c == '/') pl).map pyStrip).filter (fun p => !p.isEmpty)

/-- Price parsing of the designated price line: the first three parts
go to students, employees and others in that order; a missing part or
an unparseable part leaves the role absent. -/
def parsePriceLine (pl : List Char) : Prices :=
  { students := (cleanParts pl)[0]?.bind normPriceCore
    employees := (cleanParts pl)[1]?.bind normPriceCore
    others := (cleanParts pl)[2]?.bind normPriceCore }

/-- Build one meal from the raw category header and the meal body, as
the per-entry part of parse_text_blocks does; no meal when the body has
no non-empty line. -/
def mkMeal (catRaw body : List Char) : Option Meal :=
  match mkLines body with
  | [] => none
  | nm :: _ =>
    let pl := findPriceLine (mkLines body)
    let ann := classifyLabels (findLabels (catRaw ++ ' ' :: body))
    some
      { category := categoryOf catRaw
        name := nm
        notes := appendResiduals ann.1 (residualCands (mkLines body) pl)
        allergens := ann.2
        prices :=
          match pl with
          | some l => parsePriceLine l
          | none => ⟨none, none, none⟩ }

/-- Parse one entry of a day block: strip it, read the first line as the
raw category header, require at least one newline after it, and build
the meal from the remaining body; entries without that shape are
skipped. -/
def parseEntry (entRaw : List Char) : Option Meal :=
  let ent := pyStrip entRaw
  if ent.isEmpty then none
  else
    match ent.dropWhile (fun c => !(c == '\n')) with
    | [] => none
    | rest => mkMeal (pyStrip (ent.takeWhile (fun c => !(c == '\n')))) (pyStrip rest)

/-- Scanner for the entry separator pattern: a newline, optional
whitespace, an asterisk, optional whitespace, five hash marks and
optional trailing whitespace.  Returns the rest of the input after the
separator. -/
def matchEntrySep : List Char → Option (List Char)
  | '\n' :: r =>
    match r.dropWhile isSpaceChar with
    | '*' :: r2 =>
      match dropLit "#####".toList (r2.dropWhile isSpaceChar) with
      | some r3 => some (r3.dropWhile isSpaceChar)
      | none => none
    | _ => none
  | _ => none

/-- Fuelled splitting of a day block at every entry separator, keeping
every segment as re.split does. -/
def splitEntriesAux : Nat → List Char → List Char → List (List Char)
  | _, acc, [] => [acc.reverse]
  | 0, acc, rest => [acc.reverse ++ rest]
  | fuel + 1, acc, c :: t =>
    match matchEntrySep (c :: t) with
    | some rest => acc.reverse :: splitEntriesAux fuel [] rest
    | none => splitEntriesAux fuel (c :: acc) t

/-- Split a day block into its entries. -/
def splitEntries (cs : List Char) : List (List Char) :=
  splitEntriesAux cs.length [] cs

/-- All meals of one day block. -/
def parseDayBlock (block : List Char) : List Meal :=
  (splitEntries block).filterMap parseEntry

/-- Scanner for the day-header pattern at the current position: four
hash marks, optional whitespace, a non-empty weekday name over the
source alphabet, a comma, optional whitespace, then day and month each
as one or two digits with a trailing dot.  Returns the weekday, the day
and month numbers and the rest of the input. -/
def matchDayHeaderAt (cs : List Char) : Option (List Char × Nat × Nat × List Char) :=
  match dropLit "####".toList cs with
  | none => none
  | some r1 =>
    let r2 := r1.dropWhile isSpaceChar
    if (r2.takeWhile isGermanAlpha).isEmpty then none
    else
      match r2.dropWhile isGermanAlpha with
      | ',' :: r4 =>
        match matchD12Dot (r4.dropWhile isSpaceChar) with
        | none => none
        | some (d, r6) =>
          match matchD12Dot r6 with
          | none => none
          | some (mo, r7) => some (r2.takeWhile isGermanAlpha, d, mo, r7)
      | _ => none

/-- One day header together with the raw text block that follows it. -/
structure RawDay where
  weekday : List Char
  dayN : Nat
  monthN : Nat
  block : List Char
deriving DecidableEq

/-- Close the day currently being accumulated, stripping its block. -/
def closeRaw : Option (List Char × Nat × Nat) → List Char → List RawDay
  | none, _ => []
  | some (wd, d, m), acc => [⟨wd, d, m, pyStrip acc.reverse⟩]

/-- Fuelled finditer over the day-header pattern: at every position try
the header scanner; a hit closes the open day and opens a new one, a
miss adds the character to the open block. -/
def scanDaysAux : Nat → Option (List Char × Nat × Nat) → List Char → List Char → List RawDay
  | 0, cur, acc, _ => closeRaw cur acc
  | fuel + 1, cur, acc, cs =>
    match matchDayHeaderAt cs with
    | some (wd, d, m, rest) => closeRaw cur acc ++ scanDaysAux fuel (some (wd, d, m)) [] rest
    | none =>
      match cs with
      | [] => closeRaw cur acc
      | c :: t => scanDaysAux fuel cur (c :: acc) t

/-- All day headers of a text with their blocks. -/
def scanDayHeaders (cs : List Char) : List RawDay :=
  scanDaysAux (cs.length + 1) none [] cs

/-- The decimal digit character of n modulo ten. -/
def natDigit (n : Nat) : Char :=
  Char.ofNat (48 + n % 10)

/-- A number printed as two decimal digits. -/
def pad2S (n : Nat) : String :=
  String.mk [natDigit (n / 10), natDigit n]

/-- A number printed as four decimal digits. -/
def pad4S (n : Nat) : String :=
  String.mk [natDigit (n / 1000), natDigit (n / 100), natDigit (n / 10), natDigit n]

/-- The ISO-8601 rendering of a date, as the Python date isoformat
method produces it. -/
def isoFormat (y m d : Nat) : String :=
  pad4S y ++ "-" ++ pad2S m ++ "-" ++ pad2S d

/-- Complete one raw day: append the inferred year to the header date
and keep the ISO date when it parses, and parse the block into meals. -/
def rawToDay (year : Nat) (rd : RawDay) : Day :=
  { date := if validDMY rd.dayN rd.monthN year then some (isoFormat year rd.monthN rd.dayN) else none
    weekday := rd.weekday
    meals := parseDayBlock rd.block }

/-- Embedding of parse_text_blocks: infer the year once, scan the day
headers and complete every day.  The ambient current year is the
nowYear argument. -/
def parse_text_blocks (text : String) (nowYear : Nat) : List Day :=
  (scanDayHeaders text.toList).map (rawToDay (extract_year_from_text text nowYear))

/-- The tally of the sufficiency check of main: the number of parsed
days that carry a date. -/
def sufficiencyTally (days : List Day) : Nat :=
  (days.filter (fun d => d.date.isSome)).length

/-- The OpenMensa v2 namespace string of the source. -/
def NAMESPACE : String :=
  "http://openmensa.org/open-mensa-v2"

/-- The XML declaration the ElementTree serializer emits. -/
def XMLDECL : String :=
  "<?xml version=\x271.0\x27 encoding=\x27utf-8\x27?>\n"

/-- Round half to even of one hundred times a rational value, computed
on the numerator and denominator so that it evaluates by kernel
reduction.  This models the rounding of the Python two-decimal float
format on the decimal amounts of this program. -/
def rhe100 (v : Rat) : Int :=
  if 2 * ((100 * v.num).fmod (v.den : Int)) < (v.den : Int) then
    (100 * v.num).fdiv (v.den : Int)
  else if (v.den : Int) < 2 * ((100 * v.num).fmod (v.den : Int)) then
    (100 * v.num).fdiv (v.den : Int) + 1
  else if ((100 * v.num).fdiv (v.den : Int)) % 2 = 0 then
    (100 * v.num).fdiv (v.den : Int)
  else (100 * v.num).fdiv (v.den : Int) + 1

/-- The Python two-decimal format of a price value: the rounded amount
with exactly two digits after the decimal point and a leading minus for
negative values. -/
def formatTwoDec (v : Rat) : String :=
  if rhe100 v < 0 then
    "-" ++ toString ((-(rhe100 v)).toNat / 100) ++ "." ++ pad2S ((-(rhe100 v)).toNat % 100)
  else toString ((rhe100 v).toNat / 100) ++ "." ++ pad2S ((rhe100 v).toNat % 100)

/-- An XML element: tag, attributes in order, optional text and child
elements in order. -/
inductive XElem where
  | el (tag : String) (attrs : List (String × String)) (txt : Option String)
      (children : List XElem)

/-- One serialized attribute. -/
def attrString (a : String × String) : String :=
  " " ++ a.1 ++ "=\x22" ++ a.2 ++ "\x22"

/-- Serialize an element tree to a string: open tag with attributes,
text, children in order, close tag. -/
def serializeX : XElem → String
  | .el tag attrs txt children =>
    "<" ++ tag ++ String.join (attrs.map attrString) ++ ">" ++
      (match txt with
       | some t => t
       | none => "") ++
      String.join (children.attach.map (fun c => serializeX c.1)) ++
      "</" ++ tag ++ ">"
decreasing_by
  have := List.sizeOf_lt_of_mem c.2
  simp only [XElem.el.sizeOf_spec]
  omega

/-- The price children of a meal element, in the insertion order of the
source dictionary: students, employees, others, skipping absent roles. -/
def priceElems (p : Prices) : List XElem :=
  (match p.students with
   | some v => [XElem.el "price" [("role", "students")] (some (formatTwoDec v)) []]
   | none => []) ++
  (match p.employees with
   | some v => [XElem.el "price" [("role", "employees")] (some (formatTwoDec v)) []]
   | none => []) ++
  (match p.others with
   | some v => [XElem.el "price" [("role", "others")] (some (formatTwoDec v)) []]
   | none => [])

/-- The element of one meal: name, then one note element per note, then
one note element per allergen code with the fixed label, then the price
elements. -/
def renderMeal (m : Meal) : XElem :=
  XElem.el "meal" [] none
    (XElem.el "name" [] (some (String.mk m.name)) [] ::
      (m.notes.map (fun n => XElem.el "note" [] (some (String.mk n)) []) ++
        m.allergens.map
          (fun c => XElem.el "note" [] (some ("Allergene: " ++ String.mk c)) []) ++
        priceElems m.prices))

/-- Append a meal to the ordered category groups, as the insertion into
the source dictionary of lists does: extend the group of its category,
or open a new group at the end. -/
def insertGroup : List (List Char × List Meal) → Meal → List (List Char × List Meal)
  | [], m => [(m.category, [m])]
  | (c, ms) :: rest, m =>
    if c = m.category then (c, ms ++ [m]) :: rest
    else (c, ms) :: insertGroup rest m

/-- Group the meals of a day by category, preserving first-seen
category order and the original meal order inside each group. -/
def groupByCategory (meals : List Meal) : List (List Char × List Meal) :=
  meals.foldl insertGroup []

/-- The element of one category group. -/
def renderCategory (g : List Char × List Meal) : XElem :=
  XElem.el "category" [("name", String.mk g.1)] none (g.2.map renderMeal)

/-- The element of one dated day. -/
def renderDay (d : Day) (dateStr : String) : XElem :=
  XElem.el "day" [("date", dateStr)] none ((groupByCategory d.meals).map renderCategory)

/-- The day elements of the canteen: one element per day that carries a
date, skipping the days whose date is absent. -/
def renderDays : List Day → List XElem
  | [] => []
  | d :: rest =>
    match d.date with
    | none => renderDays rest
    | some ds => renderDay d ds :: renderDays rest

/-- The full element tree of the feed. -/
def buildTree (canteenName : String) (days : List Day) : XElem :=
  XElem.el "openmensa" [("xmlns", NAMESPACE), ("version", "2.1")] none
    [XElem.el "canteen" [] none
      (XElem.el "name" [] (some canteenName) [] :: renderDays days)]

/-- Embedding of build_openmensa_xml: the serialized feed document. -/
def build_openmensa_xml (canteenName : String) (days : List Day) : String :=
  XMLDECL ++ serializeX (buildTree canteenName days)

/-- The children of an element. -/
def XElem.children : XElem → List XElem
  | .el _ _ _ cs => cs

/-- Whether an element is a price element. -/
def isPriceEl : XElem → Bool
  | .el tag _ _ _ => tag == "price"

/-- The role attribute of an element, empty when absent. -/
def roleOf : XElem → String
  | .el _ attrs _ _ => ((attrs.find? (fun a => a.1 == "role")).map Prod.snd).getD ""

/-- The role names of the present prices, in the fixed source order. -/
def rolesOf (p : Prices) : List String :=
  (if p.students.isSome then ["students"] else []) ++
    (if p.employees.isSome then ["employees"] else []) ++
    (if p.others.isSome then ["others"] else [])

/-- The shape the category pattern requires, stated as an explicit
decomposition: five characters reading essen case-insensitively, a run
of whitespace, then a digit. -/
def EssenShape (s : List Char) : Prop :=
  ∃ c1 c2 c3 c4 c5 sp d rest,
    s = c1 :: c2 :: c3 :: c4 :: c5 :: (sp ++ d :: rest) ∧
    c1.toLower = 'e' ∧ c2.toLower = 's' ∧ c3.toLower = 's' ∧
    c4.toLower = 'e' ∧ c5.toLower = 'n' ∧
    (∀ c ∈ sp, isSpaceChar c = true) ∧ d.isDigit = true

lemma splitByAux_all_neg (p : Char → Bool) :
    ∀ (xs acc : List Char), (∀ c ∈ xs, p c = false) →
      splitByAux p acc xs = [acc.reverse ++ xs] := by
  intro xs
  induction xs with
  | nil => intro acc _; simp [splitByAux]
  | cons c t ih =>
    intro acc h
    have hc : p c = false := h c (List.mem_cons_self c t)
    simp only [splitByAux, hc, Bool.false_eq_true, if_false]
    rw [ih (c :: acc) (fun d hd => h d (List.mem_cons_of_mem c hd))]
    simp

lemma splitByAux_sep (p : Char → Bool) :
    ∀ (xs acc : List Char) (y : Char) (ys : List Char),
      (∀ c ∈ xs, p c = false) → p y = true →
      splitByAux p acc (xs ++ y :: ys) = (acc.reverse ++ xs) :: splitByAux p [] ys := by
  intro xs
  induction xs with
  | nil => intro acc y ys _ hy; simp [splitByAux, hy]
  | cons c t ih =>
    intro acc y ys h hy
    have hc : p c = false := h c (List.mem_cons_self c t)
    have hstep : splitByAux p acc ((c :: t) ++ y :: ys) = splitByAux p (c :: acc) (t ++ y :: ys) := by
      simp [splitByAux, hc]
    rw [hstep, ih (c :: acc) y ys (fun d hd => h d (List.mem_cons_of_mem c hd)) hy]
    simp

lemma find?_decomp {α : Type} (p : α → Bool) :
    ∀ (l : List α) (x : α), l.find? p = some x →
      ∃ pre post, l = pre ++ x :: post ∧ (∀ y ∈ pre, p y = false) ∧ p x = true := by
  intro l
  induction l with
  | nil => intro x h; simp [List.find?] at h
  | cons a t ih =>
    intro x h
    by_cases ha : p a = true
    · rw [List.find?_cons_of_pos _ ha] at h
      obtain rfl := Option.some_injective _ h
      exact ⟨[], t, rfl, by simp, ha⟩
    · have ha' : p a = false := by revert ha; cases p a <;> simp
      rw [List.find?_cons_of_neg _ (by simp [ha'])] at h
      obtain ⟨pre, post, hl, hpre, hx⟩ := ih x h
      exact ⟨a :: pre, post, by simp [hl], by
        intro y hy
        rcases List.mem_cons.mp hy with rfl | hy'
        · exact ha'
        · exact hpre y hy', hx⟩

lemma appendResiduals_spec :
    ∀ (cands notes : List (List Char)),
      ∃ res, appendResiduals notes cands = notes ++ res ∧ res.Sublist cands ∧
        res.Nodup ∧ ∀ x ∈ res, x ∉ notes := by
  intro cands
  induction cands with
  | nil => intro notes; exact ⟨[], by simp [appendResiduals], by simp, by simp, by simp⟩
  | cons c t ih =>
    intro notes
    by_cases hc : c ∈ notes
    · obtain ⟨res, h1, h2, h3, h4⟩ := ih notes
      refine ⟨res, ?_, h2.cons c, h3, h4⟩
      simpa [appendResiduals, hc] using h1
    · obtain ⟨res, h1, h2, h3, h4⟩ := ih (notes ++ [c])
      refine ⟨c :: res, ?_, h2.cons₂ c, ?_, ?_⟩
      · have : appendResiduals (notes ++ [c]) t = notes ++ [c] ++ res := h1
        simpa [appendResiduals, hc] using this
      · refine List.nodup_cons.mpr ⟨fun hcr => ?_, h3⟩
        exact (h4 c hcr) (by simp)
      · intro x hx
        rcases List.mem_cons.mp hx with rfl | hx'
        · exact hc
        · intro hxn
          exact (h4 x hx') (by simp [hxn])

lemma dropWhile_all_cons (p : Char → Bool) :
    ∀ (sp : List Char) (d : Char) (r : List Char),
      (∀ c ∈ sp, p c = true) → p d = false →
      (sp ++ d :: r).dropWhile p = d :: r := by
  intro sp
  induction sp with
  | nil => intro d r _ hd; simp [List.dropWhile, hd]
  | cons c t ih =>
    intro d r h hd
    have hc : p c = true := h c (List.mem_cons_self c t)
    simp only [List.cons_append, List.dropWhile, hc]
    exact ih d r (fun e he => h e (List.mem_cons_of_mem c he)) hd

lemma space_not_digit {c : Char} (h : isSpaceChar c = true) : c.isDigit = false := by
  simp only [isSpaceChar, Bool.or_eq_true, beq_iff_eq] at h
  rcases h with ((((h | h) | h) | h) | h) | h <;> subst h <;> decide

lemma digit_not_space {c : Char} (h : c.isDigit = true) : isSpaceChar c = false := by
  cases hs : isSpaceChar c
  · rfl
  · rw [space_not_digit hs] at h; exact absurd h (by simp)

lemma isEssen_iff (s : List Char) : isEssenHeaderB s = true ↔ EssenShape s := by
  constructor
  · intro h
    match s, h with
    | c1 :: c2 :: c3 :: c4 :: c5 :: rest, h =>
      simp only [isEssenHeaderB, Bool.and_eq_true, beq_iff_eq] at h
      obtain ⟨⟨⟨⟨⟨h1, h2⟩, h3⟩, h4⟩, h5⟩, h6⟩ := h
      rcases hdw : rest.dropWhile isSpaceChar with _ | ⟨d, tail⟩
      · rw [hdw] at h6; exact absurd h6 (by simp)
      · rw [hdw] at h6
        have hr : rest = rest.takeWhile isSpaceChar ++ d :: tail := by
          conv_lhs => rw [← List.takeWhile_append_dropWhile (p := isSpaceChar) (l := rest)]
          rw [hdw]
        refine ⟨c1, c2, c3, c4, c5, rest.takeWhile isSpaceChar, d, tail, ?_, h1, h2, h3, h4, h5, ?_, h6⟩
        · rw [← hr]
        · intro c hc; exact List.mem_takeWhile_imp hc
  · rintro ⟨c1, c2, c3, c4, c5, sp, d, rest, rfl, h1, h2, h3, h4, h5, hsp, hd⟩
    simp only [isEssenHeaderB, Bool.and_eq_true, beq_iff_eq]
    refine ⟨⟨⟨⟨⟨h1, h2⟩, h3⟩, h4⟩, h5⟩, ?_⟩
    rw [dropWhile_all_cons isSpaceChar sp d rest hsp (digit_not_space hd)]
    exact hd

lemma floatOfSplit_nonneg (l : List (List Char)) (v : Rat)
    (h : floatOfSplit l = some v) : 0 ≤ v := by
  rcases l with _ | ⟨ip, _ | ⟨fp, _ | ⟨x, tl⟩⟩⟩
  · exact absurd h (by simp [floatOfSplit])
  · simp only [floatOfSplit] at h
    by_cases hip : ip.isEmpty
    · rw [if_pos hip] at h; exact absurd h (by simp)
    · rw [if_neg hip] at h
      obtain rfl := Option.some_injective _ h.symm
      exact Rat.divInt_nonneg (Int.natCast_nonneg _) (by decide)
  · simp only [floatOfSplit] at h
    by_cases hb : ip.isEmpty && fp.isEmpty
    · rw [if_pos hb] at h; exact absurd h (by simp)
    · rw [if_neg hb] at h
      obtain rfl := Option.some_injective _ h.symm
      exact Rat.divInt_nonneg (Int.natCast_nonneg _) (Int.natCast_nonneg _)
  · exact absurd h (by simp [floatOfSplit])

lemma parseFloatCore_nonneg (cs : List Char) (v : Rat)
    (h : parseFloatCore cs = some v) : 0 ≤ v :=
  floatOfSplit_nonneg _ v h

lemma normPriceCore_nonneg (cs : List Char) (v : Rat)
    (h : normPriceCore cs = some v) : 0 ≤ v := by
  unfold normPriceCore at h
  by_cases he : cs.isEmpty
  · rw [if_pos he] at h; exact absurd h (by simp)
  · rw [if_neg he] at h; exact parseFloatCore_nonneg _ v h

/-- Claim C1 counterexample: the text consisting of one day header with
the invalid date February 30 parses to exactly one Day, yet the
sufficiency tally of main counts zero days, so the tally does not equal
the number of all Days scanned. -/
theorem c1_tally_counterexample :
    sufficiencyTally (parse_text_blocks "#### Montag, 30.2." 2025) = 0 ∧
    (parse_text_blocks "#### Montag, 30.2." 2025).length = 1 ∧
    sufficiencyTally (parse_text_blocks "#### Montag, 30.2." 2025) ≠
      (parse_text_blocks "#### Montag, 30.2." 2025).length := by
  refine ⟨by decide, by decide, by decide⟩

/-- Claim C1, amended: a Day whose header date fails to parse is
excluded from the rendered feed, and it is also excluded from the tally
of the sufficiency check: the day elements of the feed are exactly the
dated days in order, and the sufficiency tally equals the number of
days with a resolvable date, not the number of all Days scanned. -/
theorem c1_dateless_day_excluded (name : String) (days : List Day) :
    renderDays days =
      (days.filter (fun d => d.date.isSome)).map (fun d => renderDay d (d.date.getD "")) ∧
    sufficiencyTally days = (days.filter (fun d => d.date.isSome)).length ∧
    buildTree name days =
      XElem.el "openmensa" [("xmlns", NAMESPACE), ("version", "2.1")] none
        [XElem.el "canteen" [] none
          (XElem.el "name" [] (some name) [] :: renderDays days)] := by
  refine ⟨?_, rfl, rfl⟩
  induction days with
  | nil => rfl
  | cons d rest ih =>
    cases hd : d.date with
    | none => simp [renderDays, hd, ih]
    | some ds => simp [renderDays, hd, ih]

/-- Claim C2: year inference returns the year of the first date of the
first date-range match when that date is a valid day-first date,
and the current year both when no range matches and when the first
date of the first match does not parse. -/
theorem c2_year_inference (text : String) (nowY : Nat) :
    (∀ d m y, searchRange text.toList = some (d, m, y) → validDMY d m y = true →
      extract_year_from_text text nowY = y) ∧
    (searchRange text.toList = none → extract_year_from_text text nowY = nowY) ∧
    (∀ d m y, searchRange text.toList = some (d, m, y) → validDMY d m y = false →
      extract_year_from_text text nowY = nowY) := by
  refine ⟨?_, ?_, ?_⟩
  · intro d m y hs hv
    simp only [String.toList] at hs
    simp [extract_year_from_text, String.toList, hs, hv]
  · intro hs
    simp only [String.toList] at hs
    simp [extract_year_from_text, String.toList, hs]
  · intro d m y hs hv
    simp only [String.toList] at hs
    simp [extract_year_from_text, String.toList, hs, hv]

/-- Witness for C2 at three concrete texts: a valid range, no range,
and a range whose first date is February 30. -/
theorem c2_year_inference_witness :
    extract_year_from_text "Speiseplan 3.3.2025 - 7.3.2025" 2024 = 2025 ∧
    extract_year_from_text "kein Datum" 2024 = 2024 ∧
    extract_year_from_text "30.2.2025 - 7.3.2025" 2024 = 2024 :=
  ⟨(c2_year_inference "Speiseplan 3.3.2025 - 7.3.2025" 2024).1 3 3 2025 (by decide) (by decide),
   (c2_year_inference "kein Datum" 2024).2.1 (by decide),
   (c2_year_inference "30.2.2025 - 7.3.2025" 2024).2.2 30 2 2025 (by decide) (by decide)⟩

/-- Claim C9: the feed builder is a pure function: on equal canteen
names and structurally equal day sequences it yields the identical
output string. -/
theorem c9_feed_deterministic (n1 n2 : String) (d1 d2 : List Day)
    (hn : n1 = n2) (hd : d1 = d2) :
    build_openmensa_xml n1 d1 = build_openmensa_xml n2 d2 := by
  subst hn; subst hd; rfl

/-- Witness for C9: two calls of the feed builder on the same concrete
day sequence. -/
theorem c9_feed_deterministic_witness :
    build_openmensa_xml "Mensa" [⟨some "2025-03-03", "Montag".toList, []⟩] =
      build_openmensa_xml "Mensa" [⟨some "2025-03-03", "Montag".toList, []⟩] :=
  c9_feed_deterministic "Mensa" "Mensa" _ _ rfl rfl

/-- Claim C3: the designated price line is split on slashes with
trimming and dropping of empty parts, and the parts go positionally to
students, employees and others; a two-part line fills students and
employees and leaves others absent, an unparseable part leaves its role
absent, and parts beyond the third never influence the result. -/
theorem c3_price_roles :
    (∀ p1 p2 : List Char, (∀ c ∈ p1, (c == '/') = false) → (∀ c ∈ p2, (c == '/') = false) →
      pyStrip p1 ≠ [] → pyStrip p2 ≠ [] →
      parsePriceLine (p1 ++ '/' :: p2) =
        ⟨normPriceCore (pyStrip p1), normPriceCore (pyStrip p2), none⟩) ∧
    parsePriceLine "4,10€ / 6,20€".toList =
      ⟨some (Rat.divInt 41 10), some (Rat.divInt 31 5), none⟩ ∧
    parsePriceLine "abc / 6,20€".toList = ⟨none, some (Rat.divInt 31 5), none⟩ ∧
    (∀ pl pl' : List Char, (cleanParts pl).take 3 = (cleanParts pl').take 3 →
      parsePriceLine pl = parsePriceLine pl') := by
  refine ⟨?_, by decide, by decide, ?_⟩
  · intro p1 p2 h1 h2 n1 n2
    have hsplit : splitBy (fun c => c == '/') (p1 ++ '/' :: p2) = [p1, p2] := by
      unfold splitBy
      rw [splitByAux_sep _ p1 [] '/' p2 h1 (by decide),
        splitByAux_all_neg _ p2 [] h2]
      simp
    have e1 : (pyStrip p1).isEmpty = false := by
      rcases hq : pyStrip p1 with _ | _
      · exact absurd hq n1
      · rfl
    have e2 : (pyStrip p2).isEmpty = false := by
      rcases hq : pyStrip p2 with _ | _
      · exact absurd hq n2
      · rfl
    have hclean : cleanParts (p1 ++ '/' :: p2) = [pyStrip p1, pyStrip p2] := by
      unfold cleanParts
      rw [hsplit]
      simp [List.filter, e1, e2]
    unfold parsePriceLine
    rw [hclean]
    simp
  · intro pl pl' h
    have g : ∀ i, i < 3 → (cleanParts pl)[i]? = (cleanParts pl')[i]? := by
      intro i hi
      rw [← List.getElem?_take_of_lt (l := cleanParts pl) hi,
        ← List.getElem?_take_of_lt (l := cleanParts pl') hi, h]
    unfold parsePriceLine
    rw [g 0 (by decide), g 1 (by decide), g 2 (by decide)]

/-- Witness for C3 at a concrete slash decomposition of a price line. -/
theorem c3_price_roles_witness :
    parsePriceLine ("4,10€ ".toList ++ '/' :: " 6,20€".toList) =
      ⟨normPriceCore (pyStrip "4,10€ ".toList), normPriceCore (pyStrip " 6,20€".toList), none⟩ :=
  c3_price_roles.1 "4,10€ ".toList " 6,20€".toList (by decide) (by decide)
    (by decide) (by decide)

/-- Claim C4: the designated price line is the first line of the
five-line window after the name that contains a currency amount; a bare
number line without the euro sign never matches the amount pattern and
such an entry gets no prices; and a meal whose window has no match has
all three roles absent. -/
theorem c4_price_line_detection :
    (∀ (lines : List (List Char)) (pl : List Char), findPriceLine lines = some pl →
      ∃ pre post, (lines.drop 1).take 5 = pre ++ pl :: post ∧
        (∀ l ∈ pre, hasPriceAmount l = false) ∧ hasPriceAmount pl = true) ∧
    hasPriceAmount "12,34".toList = false ∧
    parseEntry "Suppe\nName\n12,34".toList =
      some ⟨"Suppe".toList, "Name".toList, [], [], ⟨none, none, none⟩⟩ ∧
    (∀ (catRaw body : List Char) (m : Meal), mkMeal catRaw body = some m →
      findPriceLine (mkLines body) = none → m.prices = ⟨none, none, none⟩) := by
  refine ⟨?_, by decide, by decide, ?_⟩
  · intro lines pl h
    unfold findPriceLine at h
    exact find?_decomp hasPriceAmount _ pl h
  · intro catRaw body m hm hpl
    simp only [mkMeal, hpl] at hm
    rcases hl : mkLines body with _ | ⟨nm, tl⟩
    · rw [hl] at hm
      exact absurd hm (by simp)
    · rw [hl] at hm
      obtain rfl := Option.some_injective _ hm
      rfl

/-- Witness for C4: the price-line decomposition at a concrete window,
and the all-absent conclusion at a concrete meal. -/
theorem c4_price_line_detection_witness :
    (∃ pre post,
      (([ "Name".toList, "x".toList, "1,50 €".toList ].drop 1).take 5 = pre ++ "1,50 €".toList :: post) ∧
      (∀ l ∈ pre, hasPriceAmount l = false) ∧ hasPriceAmount "1,50 €".toList = true) ∧
    (∀ m : Meal, mkMeal "Suppe".toList "Name\nBohnen".toList = some m →
      m.prices = ⟨none, none, none⟩) :=
  ⟨c4_price_line_detection.1 ["Name".toList, "x".toList, "1,50 €".toList]
      "1,50 €".toList (by decide),
   fun m hm => c4_price_line_detection.2.2.2 "Suppe".toList "Name\nBohnen".toList m hm (by decide)⟩

/-- Claim C5: each parenthesized group is split on slashes and commas
into trimmed non-empty parts; a group with an alphabetic character of
the source alphabet contributes its parts as notes and one without
contributes them as allergen codes; the letter group contributes three
notes and the digit group the two codes. -/
theorem c5_label_classification :
    (∀ (ls : List (List Char)) (l : List Char),
      classifyLabels (ls ++ [l]) =
        ((classifyLabels ls).1 ++ (if l.any isGermanAlpha then labelParts l else []),
         (classifyLabels ls).2 ++ (if l.any isGermanAlpha then [] else labelParts l))) ∧
    classifyLabels (findLabels "(A, C, G)".toList) = ([['A'], ['C'], ['G']], []) ∧
    classifyLabels (findLabels "(2,3)".toList) = ([], [['2'], ['3']]) := by
  refine ⟨?_, by decide, by decide⟩
  intro ls l
  unfold classifyLabels
  rw [List.foldl_append]
  simp only [List.foldl]
  cases h : l.any isGermanAlpha <;> simp

/-- Claim C6 counterexample: a meal whose category-and-body text holds
the group A slash A gets the note A twice, so exact-string duplicates
are not suppressed in the notes sequence. -/
theorem c6_notes_counterexample :
    (parseEntry "Suppe\nName\n(A/A)".toList).map Meal.notes =
      some [['A'], ['A'], "(A/A)".toList] ∧
    ¬ List.Nodup [['A'], ['A'], "(A/A)".toList] :=
  ⟨by decide, by decide⟩

/-- Claim C6, amended: the notes of a meal are the annotation-derived
notes first, in scan order and possibly with duplicates, followed by
a subsequence of the residual candidate lines in original order; a
residual line is appended only when it does not already occur among the
notes collected so far, so the residual suffix is duplicate-free and
disjoint from the annotation-derived notes. -/
theorem c6_notes_order (catRaw body : List Char) (m : Meal)
    (hm : mkMeal catRaw body = some m) :
    ∃ res, m.notes = (classifyLabels (findLabels (catRaw ++ ' ' :: body))).1 ++ res ∧
      res.Sublist (residualCands (mkLines body) (findPriceLine (mkLines body))) ∧
      res.Nodup ∧
      ∀ x ∈ res, x ∉ (classifyLabels (findLabels (catRaw ++ ' ' :: body))).1 := by
  rcases hl : mkLines body with _ | ⟨nm, tl⟩
  · simp only [mkMeal, hl] at hm
    exact absurd hm (by simp)
  · simp only [mkMeal] at hm
    rw [hl] at hm
    obtain rfl := Option.some_injective _ hm
    obtain ⟨res, h1, h2, h3, h4⟩ :=
      appendResiduals_spec (residualCands (nm :: tl) (findPriceLine (nm :: tl)))
        (classifyLabels (findLabels (catRaw ++ ' ' :: body))).1
    exact ⟨res, h1, h2, h3, h4⟩

/-- Witness for C6 at a concrete meal entry. -/
theorem c6_notes_order_witness :
    ∃ res,
      (Meal.notes
          ⟨"Suppe".toList, "Name".toList, [['A'], ['A'], "(A/A)".toList], [],
            ⟨none, none, none⟩⟩) =
        (classifyLabels (findLabels ("Suppe".toList ++ ' ' :: "Name\n(A/A)".toList))).1 ++ res ∧
      res.Sublist
        (residualCands (mkLines "Name\n(A/A)".toList)
          (findPriceLine (mkLines "Name\n(A/A)".toList))) ∧
      res.Nodup ∧
      ∀ x ∈ res,
        x ∉ (classifyLabels (findLabels ("Suppe".toList ++ ' ' :: "Name\n(A/A)".toList))).1 :=
  c6_notes_order "Suppe".toList "Name\n(A/A)".toList
    ⟨"Suppe".toList, "Name".toList, [['A'], ['A'], "(A/A)".toList], [], ⟨none, none, none⟩⟩
    (by decide)

/-- Claim C7: a raw category header matching the case-insensitive
essen-then-number pattern becomes the canonical Hauptgericht label,
and every other header stays unchanged. -/
theorem c7_category_normalization (s : List Char) :
    (EssenShape s → categoryOf s = "Hauptgericht".toList) ∧
    (¬ EssenShape s → categoryOf s = s) ∧
    categoryOf "Essen 3".toList = "Hauptgericht".toList ∧
    categoryOf "Suppe".toList = "Suppe".toList := by
  refine ⟨?_, ?_, by decide, by decide⟩
  · intro h
    unfold categoryOf
    rw [if_pos ((isEssen_iff s).mpr h)]
  · intro h
    unfold categoryOf
    rw [if_neg (fun hb => h ((isEssen_iff s).mp hb))]

/-- Witness for C7: an upper-case header with the pattern becomes the
canonical label, a plain header stays unchanged. -/
theorem c7_category_normalization_witness :
    categoryOf "ESSEN 42".toList = "Hauptgericht".toList ∧
    categoryOf "Brot".toList = "Brot".toList :=
  ⟨(c7_category_normalization "ESSEN 42".toList).1
      ⟨'E', 'S', 'S', 'E', 'N', [' '], '4', ['2'], by decide, by decide, by decide,
        by decide, by decide, by decide, by decide, by decide⟩,
   (c7_category_normalization "Brot".toList).2.1
      (fun h => absurd ((isEssen_iff "Brot".toList).mpr h) (by decide))⟩

lemma rhe100_nonneg (v : Rat) (hv : 0 ≤ v) : 0 ≤ rhe100 v := by
  have h0 : 0 ≤ v.num := Rat.num_nonneg.mpr hv
  have hn : 0 ≤ 100 * v.num := mul_nonneg (by decide) h0
  have hq : 0 ≤ (100 * v.num).fdiv (v.den : Int) :=
    Int.fdiv_nonneg hn (Int.natCast_nonneg _)
  unfold rhe100
  split_ifs <;> omega

lemma natDigit_isDigit (n : Nat) : (natDigit n).isDigit = true := by
  have h : ∀ j, j < 10 → (Char.ofNat (48 + j)).isDigit = true := by decide
  unfold natDigit
  exact h (n % 10) (Nat.mod_lt _ (by decide))

/-- Claim C8: every parsed price value is non-negative (a token that
fails numeric parsing, a minus-signed one included, yields an absent
value), both at the token parser and inside any constructed Meal; and
every non-negative value is rendered with exactly two decimal digits
after the decimal point. -/
theorem c8_price_invariants :
    (∀ (s : String) (v : Rat), normalize_price s = some v → 0 ≤ v) ∧
    (∀ (catRaw body : List Char) (m : Meal) (v : Rat), mkMeal catRaw body = some m →
      m.prices.students = some v ∨ m.prices.employees = some v ∨ m.prices.others = some v →
      0 ≤ v) ∧
    normalize_price "-1,23€" = none ∧
    (∀ v : Rat, 0 ≤ v → ∃ a b : String, formatTwoDec v = a ++ "." ++ b ∧
      b.length = 2 ∧ b.toList.all Char.isDigit = true) := by
  refine ⟨?_, ?_, by decide, ?_⟩
  · intro s v h
    exact normPriceCore_nonneg s.toList v h
  · intro catRaw body m v hm hv
    rcases hl : mkLines body with _ | ⟨nm, tl⟩
    · simp only [mkMeal, hl] at hm
      exact absurd hm (by simp)
    · simp only [mkMeal] at hm
      rw [hl] at hm
      obtain rfl := Option.some_injective _ hm
      rcases hpl : findPriceLine (nm :: tl) with _ | l
      · simp only [hpl] at hv
        rcases hv with hv | hv | hv <;> exact absurd hv (by simp)
      · simp only [hpl] at hv
        rcases hv with hv | hv | hv <;>
          · unfold parsePriceLine at hv
            obtain ⟨part, _, hp2⟩ := Option.bind_eq_some.mp hv
            exact normPriceCore_nonneg part v hp2
  · intro v hv
    have hc : ¬ rhe100 v < 0 := not_lt.mpr (rhe100_nonneg v hv)
    unfold formatTwoDec
    rw [if_neg hc]
    refine ⟨toString ((rhe100 v).toNat / 100), pad2S ((rhe100 v).toNat % 100), rfl, rfl, ?_⟩
    simp [pad2S, natDigit_isDigit]

/-- Witness for C8: the non-negativity conclusion and the two-decimal
rendering at a concrete parsed price. -/
theorem c8_price_invariants_witness :
    (0 : Rat) ≤ Rat.divInt 41 10 ∧
    (∃ a b : String, formatTwoDec (Rat.divInt 41 10) = a ++ "." ++ b ∧
      b.length = 2 ∧ b.toList.all Char.isDigit = true) :=
  ⟨c8_price_invariants.1 "4,10€" (Rat.divInt 41 10) (by decide),
   c8_price_invariants.2.2.2 (Rat.divInt 41 10)
     (c8_price_invariants.1 "4,10€" (Rat.divInt 41 10) (by decide))⟩

lemma filter_isPriceEl_map {α : Type} (g : α → XElem)
    (hg : ∀ x, isPriceEl (g x) = false) (l : List α) :
    (l.map g).filter isPriceEl = [] := by
  induction l with
  | nil => rfl
  | cons a t ih => simp [List.filter_cons, hg a, ih]

/-- Claim C10: in every rendered meal element the price children appear
in the fixed role order students, employees, others, skipping the absent
roles. -/
theorem c10_price_role_order (m : Meal) :
    ((renderMeal m).children.filter isPriceEl).map roleOf = rolesOf m.prices ∧
    List.Sublist (rolesOf m.prices) ["students", "employees", "others"] := by
  rcases m with ⟨cat, nm, notes, alls, ⟨s, e, o⟩⟩
  constructor
  · have h1 : ((notes.map (fun n => XElem.el "note" [] (some (String.mk n)) [])).filter
        isPriceEl) = [] :=
      filter_isPriceEl_map (fun n => XElem.el "note" [] (some (String.mk n)) [])
        (fun _ => rfl) notes
    have h2 : ((alls.map (fun c =>
        XElem.el "note" [] (some ("Allergene: " ++ String.mk c)) [])).filter
        isPriceEl) = [] :=
      filter_isPriceEl_map (fun c => XElem.el "note" [] (some ("Allergene: " ++ String.mk c)) [])
        (fun _ => rfl) alls
    simp only [renderMeal, XElem.children, List.filter_cons, List.filter_append, h1, h2]
    rcases s <;> rcases e <;> rcases o <;>
      simp [priceElems, rolesOf, isPriceEl, roleOf, List.filter_cons]
  · rcases s <;> rcases e <;> rcases o <;> simp [rolesOf]

